import Mathlib

/-!
Verification development for `grep_sources.py`, a recency-ordered, deduplicated
recursive text search tool.  The script walks directory trees (deduplicating by
inode, skipping symlinks, dot-directories, `node_modules`, `google-cloud-sdk`
and anaconda-style runtime distributions), registers eligible files with their
modification times, and then greps the registered files in order of decreasing
modification time.

The shallow embedding below mirrors the Python source:
  * the three process-global growable containers (`file_modtimes`,
    `canonicals`, `permission_errors`) become the fields of `StG`, threaded
    explicitly; Python `set`/`dict` are modelled as lists with set-insert /
    keyed-update semantics;
  * the recursive `add_directory` walk is modelled with an explicit recursion
    depth (`fuel`); the filesystem seen by the walk is the inductive `CEntry`
    tree (an entry carries its `os.scandir` classification data: name,
    `is_symlink` flag, and either a subdirectory with device/inode/listing, a
    file with the outcome its later `os.path.getmtime` call will have, an
    entry that is neither, or an entry whose classification raised
    `PermissionError`);
  * a directory listing of `none` models `os.scandir` raising
    `PermissionError`;
  * uncaught Python exceptions are modelled by the `ok := false` flag of
    `WResG`, which short-circuits all subsequent processing, preserving the
    state accumulated so far (as a propagating exception does);
  * the walk additionally accumulates a ghost `trace` of the `(st_dev, st_ino)`
    pairs of every directory whose enumeration (`os.scandir`) is attempted, in
    order, so that "each directory is enumerated at most once" is a statement
    about the embedding;
  * Python timestamps are modelled as integers (only their order matters),
    Python strings as Lean strings, with character-list based helpers for the
    few string operations the source uses (so that everything evaluates by
    `decide`).
-/

namespace GS

/-- Set-style insert on a list used as a Python `set`: membership test, then
append.  (`canonicals.add`, `permission_errors.add`). -/
def insertSet {α : Type} [DecidableEq α] (x : α) (s : List α) : List α :=
  if x ∈ s then s else s ++ [x]

/-- Python `dict` update `d[k] = v` on an insertion-ordered association list:
an existing key keeps its position and gets the new value, a new key is
appended. -/
def dictInsert (k : String) (v : Int) : List (String × Int) → List (String × Int)
  | [] => [(k, v)]
  | (q, w) :: rest => if q = k then (k, v) :: rest else (q, w) :: dictInsert k v rest

/-- Python `s.endswith(suffix)`. -/
def strEndsWith (s suffix : String) : Bool :=
  suffix.toList.isSuffixOf s.toList

/-- Python `s.startswith(p)`. -/
def strStartsWith (s p : String) : Bool :=
  p.toList.isPrefixOf s.toList

/-- `os.path.basename`: everything after the last slash. -/
def basename (p : String) : String :=
  String.mk (p.toList.foldl (fun acc c => if c = '/' then [] else acc ++ [c]) [])

/-- `os.path.join(directory, name)` for a relative `name`. -/
def joinPath (d n : String) : String := d ++ "/" ++ n

/-- The extension allow-list
`tuple(".c|.h|.c++|.h++|.cpp|.hpp|.js|.ts|.html|.rb|.py|.ipynb".split("|"))`. -/
def required_suffixes : List String :=
  [".c", ".h", ".c++", ".h++", ".cpp", ".hpp", ".js", ".ts", ".html", ".rb", ".py", ".ipynb"]

/-- Python `file.endswith(required_suffixes)`: true if any listed suffix
matches. -/
def hasRequiredSuffix (name : String) : Bool :=
  required_suffixes.any (fun s => strEndsWith name s)

/-- Outcome of the `os.path.getmtime` call that `add_file` performs on a file:
it returns a timestamp, raises `PermissionError` (access denied), or raises
`FileNotFoundError` (the file vanished between enumeration and the stat). -/
inductive StatRes where
  | ok (mtime : Int)
  | permissionDenied
  | vanished
deriving DecidableEq

/-- The three process-global containers of the script.  `file_modtimes` is the
File Registry (`dict` from path to mtime, insertion ordered), `canonicals` the
visited set of the walk, `permission_errors` the set of inaccessible paths.
The type of the visited-set elements is a parameter only so that the
spec-faithful device+inode variant of the walk (used to settle claim C1) can
share every other definition; the source instantiates it with the bare inode
(`α := Nat`). -/
structure StG (α : Type) where
  file_modtimes : List (String × Int)
  canonicals : List α
  permission_errors : List String
deriving DecidableEq

/-- The script's state as instantiated by the source: `canonicals` is a set of
inode numbers (`os.stat(...).st_ino` / `entry.inode()`). -/
abbrev St := StG Nat

/-- Walk result: the state, the ghost trace of `(st_dev, st_ino)` identities of
every directory whose enumeration was attempted (in order), and the
no-uncaught-exception flag (`ok = false` models a propagating exception). -/
structure WResG (α : Type) where
  st : StG α
  trace : List (Nat × Nat)
  ok : Bool
deriving DecidableEq

abbrev WRes := WResG Nat

/-- One entry of a directory listing, as classified by the walk's
`for entry in entries` loop.  `isLink` is `entry.is_symlink()`; a non-link
`subdir` is an entry with `entry.is_dir()`, carrying its device id, inode
(`entry.inode()`), and listing (`none` = `os.scandir` on it raises
`PermissionError`); a non-link `efile` is an entry with `entry.is_file()`
carrying the outcome of its future `getmtime`; `other` is an entry that is
none of the three (e.g. a fifo); `classifyErr` is an entry whose
classification calls raised `PermissionError`. -/
inductive CEntry where
  | subdir (name : String) (isLink : Bool) (dev ino : Nat) (listing : Option (List CEntry))
  | efile (name : String) (isLink : Bool) (stat : StatRes)
  | other (name : String) (isLink : Bool)
  | classifyErr (name : String)

/-- `entry.is_symlink()`. -/
def CEntry.isLink : CEntry → Bool
  | CEntry.subdir _ l _ _ _ => l
  | CEntry.efile _ l _ => l
  | CEntry.other _ l => l
  | CEntry.classifyErr _ => false

/-- The four `--skip-...` toggles, each defaulting to `True` in the source. -/
structure Flags where
  skip_anaconda_dirs : Bool
  skip_node_module_dirs : Bool
  skip_google_cloud_sdk_dirs : Bool
  skip_dotdirs : Bool
deriving DecidableEq

/-- The source's defaults: every skip enabled. -/
def defFlags : Flags := ⟨true, true, true, true⟩

/-- `add_file(filename)`:
```
try:
    file_modtimes[filename] = os.path.getmtime(filename)
except PermissionError:
    permission_errors.add(filename)
```
`stat` is the outcome of the `getmtime` call.  Only `PermissionError` is
caught; a `FileNotFoundError` (file vanished) is uncaught and propagates,
modelled by the returned flag being `false`. -/
def add_file {α : Type} (filename : String) (stat : StatRes) (st : StG α) : StG α × Bool :=
  match stat with
  | StatRes.ok t => ({ st with file_modtimes := dictInsert filename t st.file_modtimes }, true)
  | StatRes.permissionDenied =>
      ({ st with permission_errors := insertSet filename st.permission_errors }, true)
  | StatRes.vanished => (st, false)

/-- The entry-classification loop of `add_directory` (lines 56-65): walks the
scandir entries in order, skipping symlinks, collecting directories
(`dirs[entry.name] = entry`, insertion-ordered; scandir never yields duplicate
names) and files (`files.add(entry.name)`; iteration order of that set is
unspecified in Python, the embedding fixes enumeration order), and recording a
`PermissionFailure` for entries whose classification raised. -/
def classifyFold {α : Type} (directory : String) (es : List CEntry) (st : StG α) :
    List (String × Nat × Nat × Option (List CEntry)) × List (String × StatRes) × StG α :=
  match es with
  | [] => ([], [], st)
  | CEntry.subdir name isLink cdev cino clst :: rest =>
      if isLink then classifyFold directory rest st
      else
        let c := classifyFold directory rest st
        ((name, cdev, cino, clst) :: c.1, c.2.1, c.2.2)
  | CEntry.efile name isLink stat :: rest =>
      if isLink then classifyFold directory rest st
      else
        let c := classifyFold directory rest st
        (c.1, (name, stat) :: c.2.1, c.2.2)
  | CEntry.other _ _ :: rest => classifyFold directory rest st
  | CEntry.classifyErr name :: rest =>
      classifyFold directory rest
        { st with permission_errors := insertSet (joinPath directory name) st.permission_errors }

/-- The three early-return path checks of `add_directory` (lines 43-48), in
source order:
```
if directory.endswith("/node_modules") and args.skip_node_module_dirs: return
if args.skip_dotdirs and os.path.basename(directory).startswith("."): return
if directory.endswith("/google-cloud-sdk") and args.skip_google_cloud_sdk_dirs: return
```
All three return the same (already inode-marked) state, so they are combined
into one predicate. -/
def policySkip (fl : Flags) (directory : String) : Bool :=
  (strEndsWith directory "/node_modules" && fl.skip_node_module_dirs)
  || (fl.skip_dotdirs && strStartsWith (basename directory) ".")
  || (strEndsWith directory "/google-cloud-sdk" && fl.skip_google_cloud_sdk_dirs)

/-- The anaconda-signature check (line 67):
`args.skip_anaconda_dirs and "condabin" in dirs and "bin" in dirs and "conda-meta" in dirs`. -/
def anacondaSkip (fl : Flags) (dirs : List (String × Nat × Nat × Option (List CEntry))) : Bool :=
  fl.skip_anaconda_dirs && dirs.any (fun d => d.1 == "condabin")
    && dirs.any (fun d => d.1 == "bin") && dirs.any (fun d => d.1 == "conda-meta")

/-- The file-registration loop of `add_directory` (lines 73-76):
```
for file in files:
    if file.endswith(required_suffixes):
        add_file(os.path.join(directory, file))
```
An uncaught exception from `add_file` aborts the loop. -/
def registerFiles {α : Type} (directory : String) (fs : List (String × StatRes))
    (r : WResG α) : WResG α :=
  match fs with
  | [] => r
  | (name, stat) :: rest =>
      if r.ok = false then r
      else if hasRequiredSuffix name then
        let res := add_file (joinPath directory name) stat r.st
        registerFiles directory rest { r with st := res.1, ok := res.2 }
      else registerFiles directory rest r

/-- `if not inode: inode = os.stat(directory).st_ino` (lines 38-39): the
effective identity used by the walk.  `ia` is the caller-supplied
`inode=` argument (`entry.inode()` at recursive calls, absent at the root);
Python falsiness makes an explicit `0` fall back to the stat as well, and the
stat of the directory yields its true inode `statIno`. -/
def effInode (ia : Option Nat) (statIno : Nat) : Nat :=
  match ia with
  | none => statIno
  | some i => if i = 0 then statIno else i

/-- `add_directory(directory, inode=None)` (lines 37-79), with explicit
recursion depth `fuel` (the Python recursion is depth-unbounded; every theorem
below either holds for all `fuel` or takes the depth it needs).  `dev`/`ino`
are the directory's `st_dev`/`st_ino`, `lst` its scandir listing (`none` =
`PermissionError`), `ia` the caller-supplied inode.  Exhausted fuel returns
the state unchanged. -/
def add_directory : Nat → Flags → String → Nat → Nat → Option (List CEntry) → Option Nat →
    WRes → WRes
  | 0, _, _, _, _, _, _, r => r
  | fuel+1, fl, directory, dev, ino, lst, ia, r =>
    if r.ok = false then r
    else if effInode ia ino ∈ r.st.canonicals then r
    else
      let r1 : WRes :=
        { r with st := { r.st with canonicals := insertSet (effInode ia ino) r.st.canonicals } }
      if policySkip fl directory then r1
      else
        let r2 : WRes := { r1 with trace := r1.trace ++ [(dev, ino)] }
        match lst with
        | none =>
            { r2 with st :=
                { r2.st with permission_errors := insertSet directory r2.st.permission_errors } }
        | some entries =>
            let c := classifyFold directory entries r2.st
            let r3 : WRes := { r2 with st := c.2.2 }
            if anacondaSkip fl c.1 then r3
            else
              let r4 := registerFiles directory c.2.1 r3
              c.1.foldl
                (fun rr d =>
                  add_directory fuel fl (joinPath directory d.1) d.2.1 d.2.2.1 d.2.2.2
                    (some d.2.2.1) rr)
                r4

/-- Initial state: the three containers start empty (lines 24-28). -/
def initSt : St := { file_modtimes := [], canonicals := [], permission_errors := [] }

def initWRes : WRes := { st := initSt, trace := [], ok := true }

/-- What a root path on the command line turns out to be in `main`'s loop
(lines 126-132): a plain file (with the outcome of the `getmtime` that
`add_file` will perform), a directory (with its stat identity and listing), or
neither (`raise Exception(f"Cannot find ...")`). -/
inductive RootKind where
  | rfile (stat : StatRes)
  | rdir (dev ino : Nat) (listing : Option (List CEntry))
  | missing

/-- One iteration of `main`'s root loop:
```
if os.path.isfile(file_or_dir):   add_file(file_or_dir)
elif os.path.isdir(file_or_dir):  add_directory(file_or_dir)
else:                             raise Exception(...)
```
A propagating exception (`ok = false`) skips the rest of the loop. -/
def processRoot (fuel : Nat) (fl : Flags) (r : WRes) (root : String × RootKind) : WRes :=
  if r.ok = false then r
  else match root.2 with
  | RootKind.rfile stat =>
      let res := add_file root.1 stat r.st
      { r with st := res.1, ok := res.2 }
  | RootKind.rdir dev ino lst => add_directory fuel fl root.1 dev ino lst none r
  | RootKind.missing => { r with ok := false }

/-- `main`'s registry-building phase: fold the root loop over the
`files_and_directories` list, starting from the empty global state. -/
def buildRegistry (fuel : Nat) (fl : Flags) (roots : List (String × RootKind)) : WRes :=
  roots.foldl (processRoot fuel fl) initWRes

/-- Stable insertion into a list sorted by `key` descending: the new element
goes before the first element whose key is `≤` its own, hence before any
element of equal key already present. -/
def insertDesc (key : String → Int) (x : String) : List String → List String
  | [] => [x]
  | y :: ys => if key y ≤ key x then x :: y :: ys else y :: insertDesc key x ys

/-- Stable descending sort by `key`: the unique output of any stable sorting
algorithm under the reversed comparison, hence the embedding of Python's
`sorted(l, key=key, reverse=True)` (Timsort is stable, and `reverse=True`
keeps equal-key elements in list order). -/
def sortDesc (key : String → Int) (l : List String) : List String :=
  l.foldr (insertDesc key) []

/-- `file_modtimes[filename]` as a total function (every dispatched path is a
registry key, where the default is never hit). -/
def modtimeOf (fm : List (String × Int)) (p : String) : Int :=
  (fm.lookup p).getD 0

/-- Line 147:
`sorted(file_modtimes.keys(), key=lambda filename: file_modtimes[filename], reverse=True)`. -/
def filenames_to_search (fm : List (String × Int)) : List String :=
  sortDesc (modtimeOf fm) (fm.map Prod.fst)

/-- Python `str.strip()` on a character list. -/
def pyStrip (l : List Char) : List Char :=
  ((l.dropWhile Char.isWhitespace).reverse.dropWhile Char.isWhitespace).reverse

/-- `run_grep(cmdline)` (lines 88-96) as a function of the subprocess outcome:
return code `ret`, raw standard output and standard error (strings modelled as
character lists).
```
(out, err) = [x.strip() for x in p.communicate()]
ret = p.wait()
if not ret or not err: return out
if err: raise Exception(...)
```
The `Except.error` value models the raised `Exception` (which aborts the whole
run; nothing in `main` catches it). -/
def run_grep (ret : Int) (rawOut rawErr : List Char) : Except (List Char) (List Char) :=
  let out := pyStrip rawOut
  let err := pyStrip rawErr
  if ret = 0 ∨ err = [] then Except.ok out
  else Except.error ("Call to subprocess_check failed with return code ".toList ++ err ++ out)

/-- Did `run_grep` raise? -/
def grepRaises {ε α : Type} : Except ε α → Bool
  | Except.error _ => true
  | Except.ok _ => false

/-- The per-match-line truncation of the report renderer (lines 158-159):
```
if len(line) > 95: line = line[:95] + "..."
```
(the line is then printed with a constant 4-space indent). -/
def truncate_line (line : List Char) : List Char :=
  if 95 < line.length then line.take 95 ++ ['.', '.', '.'] else line

/-!  ### Spec-faithful identity variant of the walk (for claim C1 only)

The spec's **VisitedDirectory** is an "identity token (device id + inode
number...)".  `add_directory_devino` follows the spec's words: it is
`add_directory` with the visited set keyed by the pair `(st_dev, st_ino)`
instead of the source's bare `st_ino`.  Everything else (policy skips, trace,
classification, registration) is shared with the source embedding via the
`StG`/`WResG` parameter. -/

abbrev StD := StG (Nat × Nat)

abbrev WResD := WResG (Nat × Nat)

def initStD : StD := { file_modtimes := [], canonicals := [], permission_errors := [] }

def initWResD : WResD := { st := initStD, trace := [], ok := true }

/-- Follows the spec's words (§3 VisitedDirectory, §4.1): the walk of
`add_directory`, with physical identity taken to be the device-id-plus-inode
pair.  Used only to compare against the source's `add_directory`. -/
def add_directory_devino : Nat → Flags → String → Nat → Nat → Option (List CEntry) →
    Option Nat → WResD → WResD
  | 0, _, _, _, _, _, _, r => r
  | fuel+1, fl, directory, dev, ino, lst, ia, r =>
    if r.ok = false then r
    else if (dev, effInode ia ino) ∈ r.st.canonicals then r
    else
      let r1 : WResD :=
        { r with st :=
            { r.st with canonicals := insertSet (dev, effInode ia ino) r.st.canonicals } }
      if policySkip fl directory then r1
      else
        let r2 : WResD := { r1 with trace := r1.trace ++ [(dev, ino)] }
        match lst with
        | none =>
            { r2 with st :=
                { r2.st with permission_errors := insertSet directory r2.st.permission_errors } }
        | some entries =>
            let c := classifyFold directory entries r2.st
            let r3 : WResD := { r2 with st := c.2.2 }
            if anacondaSkip fl c.1 then r3
            else
              let r4 := registerFiles directory c.2.1 r3
              c.1.foldl
                (fun rr d =>
                  add_directory_devino fuel fl (joinPath directory d.1) d.2.1 d.2.2.1 d.2.2.2
                    (some d.2.2.1) rr)
                r4

/-- Follows the spec's words (§4.4, §7): the external search collaborator "ran
successfully with or without matches".  For grep that is exit status 0
(matches found) or 1 (no matches); every other outcome (e.g. exit status 2, or
a negative status for a killed process) is a failure of the tool itself.  Used
only to state claim C4 against `run_grep`. -/
def spec_ran_successfully (ret : Int) : Prop := ret = 0 ∨ ret = 1

/-- A root directory with two physically distinct subdirectories (different
device ids) that happen to share an inode number: `a` on device 1, `b` on
device 2, both with inode 5, each holding one eligible source file. -/
def aliasChildren : List CEntry :=
  [CEntry.subdir "a" false 1 5 (some [CEntry.efile "f1.py" false (StatRes.ok 10)]),
   CEntry.subdir "b" false 2 5 (some [CEntry.efile "f2.py" false (StatRes.ok 20)])]

/-- An anaconda-style runtime distribution root: the three marker
subdirectories plus an eligible file and a child whose classification raised. -/
def condaTree : List CEntry :=
  [CEntry.subdir "condabin" false 1 11 (some []),
   CEntry.subdir "bin" false 1 12 (some []),
   CEntry.subdir "conda-meta" false 1 13 (some []),
   CEntry.efile "setup.py" false (StatRes.ok 1),
   CEntry.classifyErr "mystery"]

/-- A 100-character match line (longer than the 95-column display width). -/
def longLine : List Char := List.replicate 100 'a'

/-!  ### Helper lemmas -/

theorem mem_insertSet {α : Type} [DecidableEq α] (x y : α) (s : List α) :
    y ∈ insertSet x s ↔ y ∈ s ∨ y = x := by
  unfold insertSet
  split
  · constructor
    · exact fun h => Or.inl h
    · rintro (h | rfl)
      · exact h
      · assumption
  · simp [or_comm]

theorem self_mem_insertSet {α : Type} [DecidableEq α] (x : α) (s : List α) :
    x ∈ insertSet x s := by
  rw [mem_insertSet]
  exact Or.inr rfl

theorem subset_insertSet {α : Type} [DecidableEq α] (x : α) (s : List α) :
    ∀ y ∈ s, y ∈ insertSet x s := by
  intro y hy
  rw [mem_insertSet]
  exact Or.inl hy

theorem mem_keys_dictInsert_self (k : String) (v : Int) (fm : List (String × Int)) :
    k ∈ (dictInsert k v fm).map Prod.fst := by
  induction fm with
  | nil => simp [dictInsert]
  | cons q rest ih =>
      obtain ⟨q1, q2⟩ := q
      unfold dictInsert
      split
      · simp
      · simpa using Or.inr ih

theorem mem_keys_dictInsert_of_mem (k p : String) (v : Int) (fm : List (String × Int))
    (h : p ∈ fm.map Prod.fst) : p ∈ (dictInsert k v fm).map Prod.fst := by
  induction fm with
  | nil => simp at h
  | cons q rest ih =>
      obtain ⟨q1, q2⟩ := q
      unfold dictInsert
      split
      · rename_i hq
        subst hq
        simpa using h
      · simp only [List.map_cons, List.mem_cons] at h ⊢
        rcases h with h | h
        · exact Or.inl h
        · exact Or.inr (ih h)

/-- What a single entry contributes to the `dirs` dict (skipping symlinks). -/
def entryDir : CEntry → Option (String × Nat × Nat × Option (List CEntry))
  | CEntry.subdir n l d i lst => if l then none else some (n, d, i, lst)
  | CEntry.efile _ _ _ => none
  | CEntry.other _ _ => none
  | CEntry.classifyErr _ => none

/-- What a single entry contributes to the `files` set (skipping symlinks). -/
def entryFile : CEntry → Option (String × StatRes)
  | CEntry.efile n l s => if l then none else some (n, s)
  | CEntry.subdir _ _ _ _ _ => none
  | CEntry.other _ _ => none
  | CEntry.classifyErr _ => none

theorem classifyFold_eq {α : Type} (directory : String) (es : List CEntry) (st : StG α) :
    (classifyFold directory es st).1 = es.filterMap entryDir
    ∧ (classifyFold directory es st).2.1 = es.filterMap entryFile
    ∧ (classifyFold directory es st).2.2.file_modtimes = st.file_modtimes
    ∧ (classifyFold directory es st).2.2.canonicals = st.canonicals
    ∧ (∀ p, p ∈ (classifyFold directory es st).2.2.permission_errors ↔
        p ∈ st.permission_errors ∨ ∃ n, CEntry.classifyErr n ∈ es ∧ p = joinPath directory n) := by
  induction es generalizing st with
  | nil => simp [classifyFold]
  | cons e rest ih =>
      cases e with
      | subdir n l d i lst =>
          by_cases hl : l = true
          · subst hl
            simpa [classifyFold, entryDir] using ih st
          · replace hl : l = false := by simpa using hl
            subst hl
            have h := ih st
            refine ⟨?_, ?_, h.2.2.1, h.2.2.2.1, ?_⟩
            · simp [classifyFold, entryDir, h.1]
            · simp [classifyFold, entryFile, h.2.1]
            · intro p
              have := h.2.2.2.2 p
              simpa [classifyFold] using this
      | efile n l s =>
          by_cases hl : l = true
          · subst hl
            simpa [classifyFold, entryFile] using ih st
          · replace hl : l = false := by simpa using hl
            subst hl
            have h := ih st
            refine ⟨?_, ?_, h.2.2.1, h.2.2.2.1, ?_⟩
            · simp [classifyFold, entryDir, h.1]
            · simp [classifyFold, entryFile, h.2.1]
            · intro p
              have := h.2.2.2.2 p
              simpa [classifyFold] using this
      | other n l =>
          simpa [classifyFold, entryDir, entryFile] using ih st
      | classifyErr n =>
          have h := ih ({ st with permission_errors := insertSet (joinPath directory n) st.permission_errors })
          refine ⟨?_, ?_, h.2.2.1, h.2.2.2.1, ?_⟩
          · simpa [classifyFold, entryDir] using h.1
          · simpa [classifyFold, entryFile] using h.2.1
          · intro p
            have h2 := h.2.2.2.2 p
            simp only [classifyFold] at h2 ⊢
            rw [h2, mem_insertSet]
            constructor
            · rintro (⟨hp | rfl⟩ | ⟨m, hm, rfl⟩)
              · exact Or.inl hp
              · exact Or.inr ⟨n, by simp⟩
              · exact Or.inr ⟨m, by simp [hm]⟩
            · rintro (hp | ⟨m, hm, rfl⟩)
              · exact Or.inl (Or.inl hp)
              · rcases List.mem_cons.mp hm with hm | hm
                · injection hm with hm
                  subst hm
                  exact Or.inl (Or.inr rfl)
                · exact Or.inr ⟨m, hm, rfl⟩

theorem insertDesc_perm (key : String → Int) (x : String) (l : List String) :
    (insertDesc key x l).Perm (x :: l) := by
  induction l with
  | nil => simp [insertDesc]
  | cons y ys ih =>
      unfold insertDesc
      split
      · exact List.Perm.refl _
      · exact ((ih.cons y).trans (List.Perm.swap x y ys))

theorem sortDesc_perm (key : String → Int) (l : List String) :
    (sortDesc key l).Perm l := by
  induction l with
  | nil => simp [sortDesc]
  | cons x xs ih =>
      have h1 : sortDesc key (x :: xs) = insertDesc key x (sortDesc key xs) := rfl
      rw [h1]
      exact (insertDesc_perm key x (sortDesc key xs)).trans (ih.cons x)

theorem insertDesc_sorted (key : String → Int) (x : String) (l : List String)
    (h : List.Sorted (fun a b => key b ≤ key a) l) :
    List.Sorted (fun a b => key b ≤ key a) (insertDesc key x l) := by
  induction l with
  | nil => simp [insertDesc]
  | cons y ys ih =>
      unfold insertDesc
      rw [List.sorted_cons] at h
      split
      · rename_i hxy
        rw [List.sorted_cons]
        refine ⟨?_, List.sorted_cons.mpr h⟩
        intro b hb
        rcases List.mem_cons.mp hb with rfl | hb
        · exact hxy
        · exact le_trans (h.1 b hb) hxy
      · rename_i hxy
        push_neg at hxy
        rw [List.sorted_cons]
        refine ⟨?_, ih h.2⟩
        intro b hb
        have : b ∈ x :: ys := (insertDesc_perm key x ys).mem_iff.mp hb
        rcases List.mem_cons.mp this with rfl | hb2
        · exact le_of_lt hxy
        · exact h.1 b hb2

theorem sortDesc_sorted (key : String → Int) (l : List String) :
    List.Sorted (fun a b => key b ≤ key a) (sortDesc key l) := by
  induction l with
  | nil => simp [sortDesc]
  | cons x xs ih => exact insertDesc_sorted key x (sortDesc key xs) ih

theorem insertDesc_filter_eq (key : String → Int) (t : Int) (x : String) (l : List String)
    (hs : List.Sorted (fun a b => key b ≤ key a) l) :
    (insertDesc key x l).filter (fun p => key p = t)
      = if key x = t then x :: l.filter (fun p => key p = t)
        else l.filter (fun p => key p = t) := by
  induction l with
  | nil =>
      simp only [insertDesc, List.filter]
      split <;> simp_all
  | cons y ys ih =>
      rw [List.sorted_cons] at hs
      unfold insertDesc
      split
      · rename_i hxy
        by_cases hxt : key x = t
        · simp [List.filter_cons, hxt]
        · simp [List.filter_cons, hxt]
      · rename_i hxy
        push_neg at hxy
        by_cases hxt : key x = t
        · have hyt : ¬ (key y = t) := by
            intro hyt
            rw [hyt, ← hxt] at hxy
            exact absurd hxy (by simp)
          simp [List.filter_cons, hxt, hyt, ih hs.2]
        · by_cases hyt : key y = t
          · simp [List.filter_cons, hxt, hyt, ih hs.2]
          · simp [List.filter_cons, hxt, hyt, ih hs.2]

theorem sortDesc_filter_eq (key : String → Int) (t : Int) (l : List String) :
    (sortDesc key l).filter (fun p => key p = t) = l.filter (fun p => key p = t) := by
  induction l with
  | nil => simp [sortDesc]
  | cons x xs ih =>
      have h1 : sortDesc key (x :: xs) = insertDesc key x (sortDesc key xs) := rfl
      rw [h1, insertDesc_filter_eq key t x (sortDesc key xs) (sortDesc_sorted key xs)]
      by_cases hxt : key x = t
      · simp [List.filter_cons, hxt, ih]
      · simp [List.filter_cons, hxt, ih]

/-- The three containers only ever gain members (spec §3 lifecycle): `s'`
contains everything `s` does (canonical identities, registry keys, recorded
permission failures). -/
def StLe {α : Type} (s sq : StG α) : Prop :=
  (∀ i, i ∈ s.canonicals → i ∈ sq.canonicals)
  ∧ (∀ p, p ∈ s.file_modtimes.map Prod.fst → p ∈ sq.file_modtimes.map Prod.fst)
  ∧ (∀ p, p ∈ s.permission_errors → p ∈ sq.permission_errors)

theorem stLe_refl {α : Type} (s : StG α) : StLe s s :=
  ⟨fun _ h => h, fun _ h => h, fun _ h => h⟩

theorem stLe_trans {α : Type} {a b c : StG α} (h1 : StLe a b) (h2 : StLe b c) : StLe a c :=
  ⟨fun i h => h2.1 i (h1.1 i h), fun p h => h2.2.1 p (h1.2.1 p h),
   fun p h => h2.2.2 p (h1.2.2 p h)⟩

theorem add_file_stle {α : Type} (fn : String) (stat : StatRes) (st : StG α) :
    StLe st (add_file fn stat st).1 ∧ (add_file fn stat st).1.canonicals = st.canonicals := by
  cases stat with
  | ok t =>
      refine ⟨⟨fun i h => h, ?_, fun p h => h⟩, rfl⟩
      intro p hp
      exact mem_keys_dictInsert_of_mem fn p t st.file_modtimes hp
  | permissionDenied =>
      exact ⟨⟨fun i h => h, fun p h => h, fun p hp => subset_insertSet fn _ p hp⟩, rfl⟩
  | vanished => exact ⟨stLe_refl st, rfl⟩

theorem registerFiles_state {α : Type} (directory : String) (fs : List (String × StatRes))
    (r : WResG α) :
    StLe r.st (registerFiles directory fs r).st
    ∧ (registerFiles directory fs r).st.canonicals = r.st.canonicals
    ∧ (registerFiles directory fs r).trace = r.trace := by
  induction fs generalizing r with
  | nil => exact ⟨stLe_refl _, rfl, rfl⟩
  | cons f rest ih =>
      obtain ⟨name, stat⟩ := f
      unfold registerFiles
      split
      · exact ⟨stLe_refl _, rfl, rfl⟩
      · split
        · have ha := add_file_stle (joinPath directory name) stat r.st
          have hr := ih { r with st := (add_file (joinPath directory name) stat r.st).1,
                                 ok := (add_file (joinPath directory name) stat r.st).2 }
          exact ⟨stLe_trans ha.1 hr.1, by rw [hr.2.1]; exact ha.2, hr.2.2⟩
        · exact ih r

theorem classifyFold_stle {α : Type} (directory : String) (es : List CEntry) (st : StG α) :
    StLe st (classifyFold directory es st).2.2 := by
  have h := classifyFold_eq directory es st
  refine ⟨fun i hi => ?_, fun p hp => ?_, fun p hp => ?_⟩
  · rw [h.2.2.2.1]; exact hi
  · rw [h.2.2.1]; exact hp
  · exact (h.2.2.2.2 p).mpr (Or.inl hp)

theorem stle_insert_canonicals {α : Type} [DecidableEq α] (x : α) (s : StG α) :
    StLe s { s with canonicals := insertSet x s.canonicals } :=
  ⟨fun i h => subset_insertSet x _ i h, fun _ h => h, fun _ h => h⟩

theorem add_directory_stle :
    ∀ (fuel : Nat) (fl : Flags) (directory : String) (dev ino : Nat)
      (lst : Option (List CEntry)) (ia : Option Nat) (r : WRes),
    StLe r.st (add_directory fuel fl directory dev ino lst ia r).st := by
  intro fuel
  induction fuel with
  | zero => intro fl directory dev ino lst ia r; exact stLe_refl _
  | succ n ih =>
      intro fl directory dev ino lst ia r
      have hfold : ∀ (ds : List (String × Nat × Nat × Option (List CEntry))) (rr : WRes),
          StLe rr.st ((ds.foldl (fun rr d =>
            add_directory n fl (joinPath directory d.1) d.2.1 d.2.2.1 d.2.2.2
              (some d.2.2.1) rr) rr)).st := by
        intro ds
        induction ds with
        | nil => intro rr; exact stLe_refl _
        | cons d rest ihd =>
            intro rr
            exact stLe_trans
              (ih fl (joinPath directory d.1) d.2.1 d.2.2.1 d.2.2.2 (some d.2.2.1) rr)
              (ihd _)
      simp only [add_directory]
      split
      · exact stLe_refl _
      · split
        · exact stLe_refl _
        · split
          · exact stle_insert_canonicals _ _
          · split
            · refine ⟨fun i hi => subset_insertSet _ _ i hi, fun p hp => hp,
                      fun p hp => subset_insertSet _ _ p hp⟩
            · split
              · exact stLe_trans (stle_insert_canonicals _ _) (classifyFold_stle _ _ _)
              · rename_i entries hcond
                refine stLe_trans (stLe_trans (stLe_trans
                      (stle_insert_canonicals (effInode ia ino) r.st)
                      (classifyFold_stle directory entries _))
                      (registerFiles_state directory
                        (classifyFold directory entries
                          { r.st with canonicals :=
                              insertSet (effInode ia ino) r.st.canonicals }).2.1
                        { st := (classifyFold directory entries
                            { r.st with canonicals :=
                                insertSet (effInode ia ino) r.st.canonicals }).2.2,
                          trace := r.trace ++ [(dev, ino)], ok := r.ok }).1)
                  (hfold _ _)

/-- Whenever the effective inode is determined by the directory's own stat
identity (as in every call the program makes: the root call passes no inode,
recursive calls pass the child's own `entry.inode()`), it equals `ino`. -/
theorem effInode_self (ia : Option Nat) (ino : Nat) (h : ia = none ∨ ia = some ino) :
    effInode ia ino = ino := by
  rcases h with rfl | rfl
  · rfl
  · show (if ino = 0 then ino else ino) = ino
    split <;> rfl

/-- The walk's trace discipline: the inodes of the enumerated directories are
pairwise distinct, and each of them has been recorded in the visited set. -/
def GoodTrace (r : WRes) : Prop :=
  (r.trace.map Prod.snd).Nodup ∧ ∀ q ∈ r.trace, q.2 ∈ r.st.canonicals

theorem goodTrace_of (r r2 : WRes) (h : GoodTrace r) (ht : r2.trace = r.trace)
    (hc : ∀ i, i ∈ r.st.canonicals → i ∈ r2.st.canonicals) : GoodTrace r2 := by
  constructor
  · rw [ht]
    exact h.1
  · intro q hq
    rw [ht] at hq
    exact hc _ (h.2 q hq)

/-- Appending a fresh inode to the trace while recording it keeps the trace
discipline. -/
theorem goodTrace_enum (r r2 : WRes) (dev ino : Nat) (h : GoodTrace r)
    (hfresh : ino ∉ r.st.canonicals)
    (ht : r2.trace = r.trace ++ [(dev, ino)])
    (hc : ∀ i, i ∈ insertSet ino r.st.canonicals → i ∈ r2.st.canonicals) :
    GoodTrace r2 := by
  constructor
  · rw [ht, List.map_append]
    refine List.Nodup.append h.1 (by simp) ?_
    intro x hx hx2
    simp only [List.map_cons, List.map_nil, List.mem_singleton] at hx2
    subst hx2
    rcases List.mem_map.mp hx with ⟨q, hq, hq2⟩
    exact hfresh (hq2 ▸ h.2 q hq)
  · intro q hq
    rw [ht] at hq
    rcases List.mem_append.mp hq with hq | hq
    · exact hc _ (subset_insertSet _ _ _ (h.2 q hq))
    · rw [List.mem_singleton] at hq
      subst hq
      exact hc _ (self_mem_insertSet _ _)

theorem foldl_dirs_stle (n : Nat) (fl : Flags) (directory : String)
    (ds : List (String × Nat × Nat × Option (List CEntry))) (rr : WRes) :
    StLe rr.st ((ds.foldl (fun rr d =>
      add_directory n fl (joinPath directory d.1) d.2.1 d.2.2.1 d.2.2.2
        (some d.2.2.1) rr) rr)).st := by
  induction ds generalizing rr with
  | nil => exact stLe_refl _
  | cons d rest ihd => exact stLe_trans (add_directory_stle n fl _ _ _ _ _ rr) (ihd _)

theorem add_directory_good :
    ∀ (fuel : Nat) (fl : Flags) (directory : String) (dev ino : Nat)
      (lst : Option (List CEntry)) (ia : Option Nat) (r : WRes),
    (ia = none ∨ ia = some ino) → GoodTrace r →
    GoodTrace (add_directory fuel fl directory dev ino lst ia r) := by
  intro fuel
  induction fuel with
  | zero => intro fl directory dev ino lst ia r hia h; exact h
  | succ n ih =>
      intro fl directory dev ino lst ia r hia h
      have hfold : ∀ (ds : List (String × Nat × Nat × Option (List CEntry))) (rr : WRes),
          GoodTrace rr → GoodTrace ((ds.foldl (fun rr d =>
            add_directory n fl (joinPath directory d.1) d.2.1 d.2.2.1 d.2.2.2
              (some d.2.2.1) rr) rr)) := by
        intro ds
        induction ds with
        | nil => intro rr hrr; exact hrr
        | cons d rest ihd =>
            intro rr hrr
            exact ihd _ (ih fl (joinPath directory d.1) d.2.1 d.2.2.1 d.2.2.2
              (some d.2.2.1) rr (Or.inr rfl) hrr)
      simp only [add_directory, effInode_self ia ino hia]
      split
      · exact h
      · split
        · exact h
        · rename_i hok hfresh
          split
          · exact goodTrace_of r _ h rfl (fun i hi => subset_insertSet _ _ i hi)
          · split
            · exact goodTrace_enum r _ dev ino h hfresh rfl (fun i hi => hi)
            · rename_i entries
              split
              · refine goodTrace_enum r _ dev ino h hfresh rfl (fun i hi => ?_)
                rw [(classifyFold_eq directory entries _).2.2.2.1]
                exact hi
              · refine hfold _ _ ?_
                refine goodTrace_of _ _ ?_ (registerFiles_state _ _ _).2.2
                  (fun i hi => ?_)
                · refine goodTrace_enum r _ dev ino h hfresh rfl (fun i hi => ?_)
                  rw [(classifyFold_eq directory entries _).2.2.2.1]
                  exact hi
                · rw [(registerFiles_state _ _ _).2.1]
                  exact hi

/-- A directory whose effective inode is already in the visited set is skipped
outright: the call is a no-op (lines 40-41). -/
theorem add_directory_skip_mem (fuel : Nat) (fl : Flags) (directory : String)
    (dev ino : Nat) (lst : Option (List CEntry)) (ia : Option Nat) (r : WRes)
    (hmem : effInode ia ino ∈ r.st.canonicals) :
    add_directory fuel fl directory dev ino lst ia r = r := by
  cases fuel with
  | zero => rfl
  | succ n =>
      simp only [add_directory]
      split <;> rfl

/-- A call that runs (positive depth, no pending exception) always leaves the
directory's effective inode recorded in the visited set (line 42). -/
theorem add_directory_records (n : Nat) (fl : Flags) (directory : String)
    (dev ino : Nat) (lst : Option (List CEntry)) (ia : Option Nat) (r : WRes)
    (hok : r.ok = true) :
    effInode ia ino ∈ (add_directory (n+1) fl directory dev ino lst ia r).st.canonicals := by
  simp only [add_directory]
  split
  · rename_i hbad
    rw [hok] at hbad
    cases hbad
  · split
    · assumption
    · split
      · exact self_mem_insertSet _ _
      · split
        · exact self_mem_insertSet _ _
        · rename_i entries
          split
          · rw [(classifyFold_eq directory entries _).2.2.2.1]
            exact self_mem_insertSet _ _
          · refine (foldl_dirs_stle n fl directory _ _).1 _ ?_
            rw [(registerFiles_state _ _ _).2.1]
            rw [(classifyFold_eq directory entries _).2.2.2.1]
            exact self_mem_insertSet _ _

theorem processRoot_stle (fuel : Nat) (fl : Flags) (r : WRes) (root : String × RootKind) :
    StLe r.st (processRoot fuel fl r root).st := by
  unfold processRoot
  split
  · exact stLe_refl _
  · split
    · exact (add_file_stle _ _ _).1
    · exact add_directory_stle _ _ _ _ _ _ _ _
    · exact stLe_refl _

theorem processRoot_notok (fuel : Nat) (fl : Flags) (r : WRes) (root : String × RootKind)
    (h : r.ok = false) : processRoot fuel fl r root = r := by
  unfold processRoot
  rw [if_pos h]

theorem foldl_processRoot_notok (fuel : Nat) (fl : Flags)
    (roots : List (String × RootKind)) (r : WRes) (h : r.ok = false) :
    roots.foldl (processRoot fuel fl) r = r := by
  induction roots with
  | nil => rfl
  | cons x rest ih =>
      show rest.foldl (processRoot fuel fl) (processRoot fuel fl r x) = r
      rw [processRoot_notok fuel fl r x h, ih]

theorem foldl_processRoot_stle (fuel : Nat) (fl : Flags)
    (roots : List (String × RootKind)) (r : WRes) :
    StLe r.st ((roots.foldl (processRoot fuel fl) r)).st := by
  induction roots generalizing r with
  | nil => exact stLe_refl _
  | cons x rest ih => exact stLe_trans (processRoot_stle fuel fl r x) (ih _)

theorem processRoot_rfile_keys (fuel : Nat) (fl : Flags) (r : WRes) (p : String) (t : Int)
    (hok : r.ok = true) :
    p ∈ (processRoot fuel fl r (p, RootKind.rfile (StatRes.ok t))).st.file_modtimes.map
      Prod.fst := by
  unfold processRoot
  rw [hok]
  show p ∈ (dictInsert p t r.st.file_modtimes).map Prod.fst
  exact mem_keys_dictInsert_self p t r.st.file_modtimes

theorem add_directory_scandir_denied (fuel : Nat) (fl : Flags) (directory : String)
    (dev ino : Nat) (ia : Option Nat) (r : WRes)
    (hok : r.ok = true) (hfresh : effInode ia ino ∉ r.st.canonicals)
    (hpol : policySkip fl directory = false) :
    add_directory (fuel+1) fl directory dev ino none ia r =
      { st := { file_modtimes := r.st.file_modtimes,
                canonicals := insertSet (effInode ia ino) r.st.canonicals,
                permission_errors := insertSet directory r.st.permission_errors },
        trace := r.trace ++ [(dev, ino)], ok := r.ok } := by
  simp only [add_directory, hok, hpol]
  rw [if_neg (by simp), if_neg hfresh, if_neg (by simp)]

theorem isLink_subdir (n : String) (l : Bool) (d i : Nat) (lst : Option (List CEntry)) :
    (CEntry.subdir n l d i lst).isLink = l := rfl

theorem isLink_efile (n : String) (l : Bool) (s : StatRes) :
    (CEntry.efile n l s).isLink = l := rfl

theorem isLink_other (n : String) (l : Bool) : (CEntry.other n l).isLink = l := rfl

theorem isLink_classifyErr (n : String) : (CEntry.classifyErr n).isLink = false := rfl

theorem classifyFold_filter_links {α : Type} (directory : String) (es : List CEntry)
    (st : StG α) :
    classifyFold directory (es.filter (fun e => !e.isLink)) st = classifyFold directory es st := by
  induction es generalizing st with
  | nil => rfl
  | cons e rest ih =>
      cases e with
      | subdir n l d i lst =>
          cases l with
          | false => simp [List.filter_cons, isLink_subdir, classifyFold, ih]
          | true => simp [List.filter_cons, isLink_subdir, classifyFold, ih]
      | efile n l s =>
          cases l with
          | false => simp [List.filter_cons, isLink_efile, classifyFold, ih]
          | true => simp [List.filter_cons, isLink_efile, classifyFold, ih]
      | other n l =>
          cases l with
          | false => simp [List.filter_cons, isLink_other, classifyFold, ih]
          | true => simp [List.filter_cons, isLink_other, classifyFold, ih]
      | classifyErr n => simp [List.filter_cons, isLink_classifyErr, classifyFold, ih]

theorem add_directory_anaconda (fuel : Nat) (fl : Flags) (directory : String)
    (dev ino : Nat) (entries : List CEntry) (ia : Option Nat) (r : WRes)
    (hok : r.ok = true) (hfresh : effInode ia ino ∉ r.st.canonicals)
    (hpol : policySkip fl directory = false)
    (hana : anacondaSkip fl (entries.filterMap entryDir) = true) :
    add_directory (fuel+1) fl directory dev ino (some entries) ia r =
      { st := (classifyFold directory entries
          { r.st with canonicals := insertSet (effInode ia ino) r.st.canonicals }).2.2,
        trace := r.trace ++ [(dev, ino)], ok := r.ok } := by
  have hc := (classifyFold_eq directory entries
    ({ r.st with canonicals := insertSet (effInode ia ino) r.st.canonicals })).1
  simp only [add_directory, hok, hpol]
  rw [if_neg (by simp), if_neg hfresh, if_neg (by simp)]
  rw [if_pos (by rw [hc]; exact hana)]

/-!  ### Claim theorems -/

/-- C2: for every registry, the dispatch step (`filenames_to_search`, line
147) produces the sequence of all registry paths ordered by modification time
descending, and paths with equal timestamps keep their registry order (stable
sort) — being a pure function of the registry, the order is deterministic
within a run. -/
theorem dispatch_order_sorted_stable (fm : List (String × Int)) :
    (filenames_to_search fm).Perm (fm.map Prod.fst)
    ∧ List.Sorted (fun a b => modtimeOf fm b ≤ modtimeOf fm a) (filenames_to_search fm)
    ∧ ∀ t : Int, (filenames_to_search fm).filter (fun p => modtimeOf fm p = t)
        = (fm.map Prod.fst).filter (fun p => modtimeOf fm p = t) :=
  ⟨sortDesc_perm _ _, sortDesc_sorted _ _, fun t => sortDesc_filter_eq _ t _⟩

/-- C3 counterexample: for a file whose `getmtime` fails because the file
vanished (`FileNotFoundError`), `add_file` does NOT record the path in the
permission-failure set and does NOT return normally: only `PermissionError`
is caught (line 33), so the exception propagates (`ok = false`). -/
theorem add_file_vanished_not_permission_failure :
    ¬ ((add_file "gone.py" StatRes.vanished initSt).2 = true
       ∧ "gone.py" ∈ (add_file "gone.py" StatRes.vanished initSt).1.permission_errors) := by
  decide

/-- C3 (amended): `add_file` records the path in the PermissionFailure set and
returns normally exactly for an access-denied (`PermissionError`) lookup
failure; a vanished-file (`FileNotFoundError`) lookup failure is not caught
and propagates as a fatal uncaught exception, leaving the state unchanged. -/
theorem add_file_only_permission_error_recovered (fn : String) (st : St) :
    add_file fn StatRes.permissionDenied st
      = ({ st with permission_errors := insertSet fn st.permission_errors }, true)
    ∧ add_file fn StatRes.vanished st = (st, false) :=
  ⟨rfl, rfl⟩

/-- C4 counterexample: an outcome in which the search binary fails (exit
status 2, not a "ran successfully" status) but produces no standard error is
NOT propagated as an error: `run_grep` returns the (empty) stdout, i.e. the
failure is silently treated as "no matches". -/
theorem run_grep_silent_tool_failure :
    ¬ (∀ (ret : Int) (rawOut rawErr : List Char),
        ¬ spec_ran_successfully ret → grepRaises (run_grep ret rawOut rawErr) = true) := by
  intro h
  have h2 := h 2 [] [] (by unfold spec_ran_successfully; decide)
  exact absurd h2 (by decide)

/-- C4 (amended): an invocation outcome other than "ran successfully with or
without matches" propagates as a fatal error if and only if its stripped
standard error is nonempty; a failing return code with empty stderr is
silently treated as success and its stdout (typically empty: "no matches") is
returned. -/
theorem run_grep_failure_fatal_iff_stderr (ret : Int) (rawOut rawErr : List Char)
    (h : ¬ spec_ran_successfully ret) :
    (grepRaises (run_grep ret rawOut rawErr) = true ↔ pyStrip rawErr ≠ [])
    ∧ (pyStrip rawErr = [] → run_grep ret rawOut rawErr = Except.ok (pyStrip rawOut)) := by
  have hret : ¬ ret = 0 := fun h0 => h (Or.inl h0)
  constructor
  · unfold run_grep
    by_cases he : pyStrip rawErr = []
    · rw [if_pos (Or.inr he)]
      simp [grepRaises, he]
    · rw [if_neg (by rintro (h0 | h0); exacts [hret h0, he h0])]
      simp [grepRaises, he]
  · intro he
    unfold run_grep
    rw [if_pos (Or.inr he)]

theorem run_grep_failure_fatal_iff_stderr_witness :
    (grepRaises (run_grep 2 [] []) = true ↔ pyStrip [] ≠ [])
    ∧ (pyStrip [] = [] → run_grep 2 [] [] = Except.ok (pyStrip [])) :=
  run_grep_failure_fatal_iff_stderr 2 [] [] (by unfold spec_ran_successfully; decide)

/-- C10: `run_grep` raises if and only if the return code is nonzero and the
stripped stderr is nonempty; in every other case it returns the stripped
stdout (lines 90-96). -/
theorem run_grep_raises_iff (ret : Int) (rawOut rawErr : List Char) :
    (grepRaises (run_grep ret rawOut rawErr) = true ↔ (ret ≠ 0 ∧ pyStrip rawErr ≠ []))
    ∧ ((ret = 0 ∨ pyStrip rawErr = []) →
        run_grep ret rawOut rawErr = Except.ok (pyStrip rawOut)) := by
  constructor
  · unfold run_grep
    by_cases h0 : ret = 0
    · rw [if_pos (Or.inl h0)]
      simp [grepRaises, h0]
    · by_cases he : pyStrip rawErr = []
      · rw [if_pos (Or.inr he)]
        simp [grepRaises, h0, he]
      · rw [if_neg (by rintro (hh | hh); exacts [h0 hh, he hh])]
        simp [grepRaises, h0, he]
  · intro h
    unfold run_grep
    rw [if_pos h]

theorem run_grep_raises_iff_witness :
    (grepRaises (run_grep 1 " out ".toList " ".toList) = true
        ↔ ((1 : Int) ≠ 0 ∧ pyStrip " ".toList ≠ []))
    ∧ (((1 : Int) = 0 ∨ pyStrip " ".toList = []) →
        run_grep 1 " out ".toList " ".toList = Except.ok (pyStrip " out ".toList)) :=
  run_grep_raises_iff 1 " out ".toList " ".toList

/-- C7: a symlink child is ignored entirely by the walk: removing all symlink
entries from a directory listing does not change the walk's behaviour at any
depth, in any state — so a symlink is never classified as a directory or
file, never recursed into and never registered, and link loops cannot drive
the traversal. -/
theorem symlinks_ignored (fuel : Nat) (fl : Flags) (directory : String) (dev ino : Nat)
    (es : List CEntry) (ia : Option Nat) (r : WRes) :
    add_directory fuel fl directory dev ino (some (es.filter (fun e => !e.isLink))) ia r
      = add_directory fuel fl directory dev ino (some es) ia r := by
  cases fuel with
  | zero => rfl
  | succ n => simp only [add_directory, classifyFold_filter_links]

/-- C9: a matched line longer than the 95-column display width is printed
truncated to those 95 characters followed by the `"..."` truncation marker
(lines 158-159); a line of at most 95 characters is printed verbatim. -/
theorem match_line_truncation (line : List Char) :
    (95 < line.length →
        truncate_line line = line.take 95 ++ ['.', '.', '.']
        ∧ (line.take 95).length = 95
        ∧ (truncate_line line).length = 98
        ∧ ['.', '.', '.'] <:+ truncate_line line)
    ∧ (line.length ≤ 95 → truncate_line line = line) := by
  constructor
  · intro h
    have ht : truncate_line line = line.take 95 ++ ['.', '.', '.'] := by
      unfold truncate_line
      rw [if_pos h]
    have hl : (line.take 95).length = 95 := by
      rw [List.length_take]
      omega
    refine ⟨ht, hl, ?_, ?_⟩
    · rw [ht, List.length_append, hl]
      rfl
    · exact ⟨line.take 95, ht.symm⟩
  · intro h
    unfold truncate_line
    rw [if_neg (by omega)]

theorem match_line_truncation_witness :
    (truncate_line longLine = longLine.take 95 ++ ['.', '.', '.']
      ∧ (longLine.take 95).length = 95
      ∧ (truncate_line longLine).length = 98
      ∧ ['.', '.', '.'] <:+ truncate_line longLine)
    ∧ truncate_line "short".toList = "short".toList :=
  ⟨(match_line_truncation longLine).1 (by decide),
   (match_line_truncation "short".toList).2 (by decide)⟩

/-- C1 counterexample: the source's walk does not use a device-id-plus-inode
fingerprint.  On a tree with two physically distinct directories (different
device ids 1 and 2) sharing inode number 5, the walk enumerates only the
first: directory `b`'s identity `(2, 5)` is never in the visited set, yet the
call for `b` returns immediately without enumerating, and `b`'s eligible file
is never registered — unlike the spec-faithful device+inode walk
(`add_directory_devino`), which enumerates both and registers both files. -/
theorem add_directory_identity_is_not_devino :
    (add_directory 3 defFlags "/r" 1 1 (some aliasChildren) none initWRes).st.file_modtimes
        ≠ (add_directory_devino 3 defFlags "/r" 1 1 (some aliasChildren) none
            initWResD).st.file_modtimes
    ∧ (add_directory 3 defFlags "/r" 1 1 (some aliasChildren) none initWRes).trace
        = [(1, 1), (1, 5)]
    ∧ (add_directory_devino 3 defFlags "/r" 1 1 (some aliasChildren) none initWResD).trace
        = [(1, 1), (1, 5), (2, 5)] := by
  refine ⟨by decide, by decide, by decide⟩

/-- C1 (amended): the walk deduplicates by the bare inode number
(`st_ino`, no device id).  With that identity the claimed discipline holds at
every depth: the trace of attempted enumerations never repeats an inode (so
each physical directory is enumerated at most once, though two
distinct directories with equal inodes on different devices are conflated);
a directory whose effective inode is already in the visited set is skipped as
a complete no-op; and a call that runs always leaves its inode recorded. -/
theorem add_directory_dedups_by_bare_inode (fuel : Nat) (fl : Flags) (directory : String)
    (dev ino : Nat) (lst : Option (List CEntry)) (ia : Option Nat) (r : WRes)
    (hia : ia = none ∨ ia = some ino) (hg : GoodTrace r) :
    GoodTrace (add_directory fuel fl directory dev ino lst ia r)
    ∧ (effInode ia ino ∈ r.st.canonicals →
        add_directory fuel fl directory dev ino lst ia r = r)
    ∧ (r.ok = true → 0 < fuel →
        effInode ia ino ∈ (add_directory fuel fl directory dev ino lst ia r).st.canonicals) := by
  refine ⟨add_directory_good fuel fl directory dev ino lst ia r hia hg,
          fun hmem => add_directory_skip_mem fuel fl directory dev ino lst ia r hmem,
          fun hok hpos => ?_⟩
  cases fuel with
  | zero => exact (Nat.lt_irrefl 0 hpos).elim
  | succ n => exact add_directory_records n fl directory dev ino lst ia r hok

theorem add_directory_dedups_by_bare_inode_witness :
    GoodTrace (add_directory 3 defFlags "/r" 1 1 (some aliasChildren) none initWRes)
    ∧ (effInode none 1 ∈ initWRes.st.canonicals →
        add_directory 3 defFlags "/r" 1 1 (some aliasChildren) none initWRes = initWRes)
    ∧ (initWRes.ok = true → 0 < 3 →
        effInode none 1 ∈ (add_directory 3 defFlags "/r" 1 1 (some aliasChildren) none
          initWRes).st.canonicals) :=
  add_directory_dedups_by_bare_inode 3 defFlags "/r" 1 1 (some aliasChildren) none initWRes
    (Or.inl rfl) ⟨by decide, by intro q hq; cases hq⟩

/-- C5: a root path that is a plain file is registered in the File Registry
and appears in the dispatch sequence, for every flag configuration and every
filename (no extension or directory-policy check applies: lines 126-128 call
`add_file` directly), provided its modification time is readable and the run
reaches the search phase (no uncaught exception from a later root). -/
theorem root_file_always_registered_and_searched (fuel : Nat) (fl : Flags)
    (roots : List (String × RootKind)) (p : String) (t : Int)
    (hmem : (p, RootKind.rfile (StatRes.ok t)) ∈ roots)
    (hok : (buildRegistry fuel fl roots).ok = true) :
    p ∈ (buildRegistry fuel fl roots).st.file_modtimes.map Prod.fst
    ∧ p ∈ filenames_to_search (buildRegistry fuel fl roots).st.file_modtimes := by
  obtain ⟨l1, l2, rfl⟩ := List.append_of_mem hmem
  have hsplit : buildRegistry fuel fl (l1 ++ (p, RootKind.rfile (StatRes.ok t)) :: l2)
      = l2.foldl (processRoot fuel fl)
          (processRoot fuel fl (l1.foldl (processRoot fuel fl) initWRes)
            (p, RootKind.rfile (StatRes.ok t))) := by
    unfold buildRegistry
    rw [List.foldl_append]
    rfl
  by_cases hok0 : (l1.foldl (processRoot fuel fl) initWRes).ok = true
  · have hkey := processRoot_rfile_keys fuel fl (l1.foldl (processRoot fuel fl) initWRes)
      p t hok0
    have hmono := foldl_processRoot_stle fuel fl l2
      (processRoot fuel fl (l1.foldl (processRoot fuel fl) initWRes)
        (p, RootKind.rfile (StatRes.ok t)))
    have h1 : p ∈ (buildRegistry fuel fl
        (l1 ++ (p, RootKind.rfile (StatRes.ok t)) :: l2)).st.file_modtimes.map Prod.fst := by
      rw [hsplit]
      exact hmono.2.1 p hkey
    exact ⟨h1, (sortDesc_perm _ _).mem_iff.mpr h1⟩
  · exfalso
    have hf : (l1.foldl (processRoot fuel fl) initWRes).ok = false := by
      simpa using hok0
    rw [hsplit, processRoot_notok _ _ _ _ hf, foldl_processRoot_notok _ _ _ _ hf] at hok
    rw [hok] at hf
    cases hf

theorem root_file_always_registered_and_searched_witness :
    "solo.txt" ∈ (buildRegistry 1 defFlags
        [("solo.txt", RootKind.rfile (StatRes.ok 7))]).st.file_modtimes.map Prod.fst
    ∧ "solo.txt" ∈ filenames_to_search (buildRegistry 1 defFlags
        [("solo.txt", RootKind.rfile (StatRes.ok 7))]).st.file_modtimes :=
  root_file_always_registered_and_searched 1 defFlags
    [("solo.txt", RootKind.rfile (StatRes.ok 7))] "solo.txt" 7
    (List.mem_singleton.mpr rfl) (by decide)

/-- C6: access denial during traversal is recovered locally, never fatal.
First part: a directory whose enumeration (`os.scandir`) raises
`PermissionError` yields exactly one new PermissionFailure entry (the
directory itself, set-inserted), registers no files, recurses nowhere, and the
call returns normally with the rest of the state untouched (lines 51-55).
Second part: a single child whose classification raises records exactly the
PermissionFailure for that child (line 65) and changes nothing else — the
sibling entries before and after it are classified exactly as if it were
absent. -/
theorem access_denied_recovered_locally :
    (∀ (fuel : Nat) (fl : Flags) (directory : String) (dev ino : Nat) (ia : Option Nat)
        (r : WRes), r.ok = true → effInode ia ino ∉ r.st.canonicals →
        policySkip fl directory = false →
        add_directory (fuel+1) fl directory dev ino none ia r =
          { st := { file_modtimes := r.st.file_modtimes,
                    canonicals := insertSet (effInode ia ino) r.st.canonicals,
                    permission_errors := insertSet directory r.st.permission_errors },
            trace := r.trace ++ [(dev, ino)], ok := r.ok })
    ∧ (∀ (directory : String) (es1 es2 : List CEntry) (n : String) (st : St),
        (classifyFold directory (es1 ++ CEntry.classifyErr n :: es2) st).1
            = (classifyFold directory (es1 ++ es2) st).1
        ∧ (classifyFold directory (es1 ++ CEntry.classifyErr n :: es2) st).2.1
            = (classifyFold directory (es1 ++ es2) st).2.1
        ∧ (classifyFold directory (es1 ++ CEntry.classifyErr n :: es2) st).2.2.file_modtimes
            = st.file_modtimes
        ∧ joinPath directory n
            ∈ (classifyFold directory
                (es1 ++ CEntry.classifyErr n :: es2) st).2.2.permission_errors) := by
  constructor
  · intro fuel fl directory dev ino ia r hok hfresh hpol
    exact add_directory_scandir_denied fuel fl directory dev ino ia r hok hfresh hpol
  · intro directory es1 es2 n st
    have h1 := classifyFold_eq directory (es1 ++ CEntry.classifyErr n :: es2) st
    have h2 := classifyFold_eq directory (es1 ++ es2) st
    refine ⟨?_, ?_, h1.2.2.1, ?_⟩
    · rw [h1.1, h2.1]
      simp [List.filterMap_append, entryDir]
    · rw [h1.2.1, h2.2.1]
      simp [List.filterMap_append, entryFile]
    · exact (h1.2.2.2.2 _).mpr (Or.inr ⟨n, by simp, rfl⟩)

theorem access_denied_recovered_locally_witness :
    add_directory 1 defFlags "/locked" 3 3 none none initWRes =
      { st := { file_modtimes := [], canonicals := insertSet (effInode none 3) [],
                permission_errors := insertSet "/locked" [] },
        trace := [] ++ [(3, 3)], ok := true }
    ∧ joinPath "/top" "kid"
        ∈ (classifyFold "/top" ([CEntry.efile "sib.py" false (StatRes.ok 1)]
            ++ CEntry.classifyErr "kid" :: []) initSt).2.2.permission_errors :=
  ⟨access_denied_recovered_locally.1 0 defFlags "/locked" 3 3 none initWRes rfl
      (by decide) (by decide),
   (access_denied_recovered_locally.2 "/top" [CEntry.efile "sib.py" false (StatRes.ok 1)]
      [] "kid" initSt).2.2.2⟩

/-- C8: with the anaconda skip enabled, a directory whose immediate (non-link)
subdirectory children include all of `condabin`, `bin` and `conda-meta` is
skipped: no file is registered from it, nothing is recursed into (the visited
set gains only this directory's inode and the trace only this directory), the
call returns normally — and the check runs only after the children have been
fully enumerated, as witnessed by the classification permission-failures of
ALL children (wherever they sit in the listing) being recorded even though
the directory is skipped (lines 56-68). -/
theorem runtime_distribution_skipped_after_enumeration (fuel : Nat) (fl : Flags)
    (directory : String) (dev ino : Nat) (entries : List CEntry) (ia : Option Nat)
    (r : WRes) (hok : r.ok = true) (hfresh : effInode ia ino ∉ r.st.canonicals)
    (hpol : policySkip fl directory = false)
    (hflag : fl.skip_anaconda_dirs = true)
    (hcb : "condabin" ∈ (entries.filterMap entryDir).map Prod.fst)
    (hbin : "bin" ∈ (entries.filterMap entryDir).map Prod.fst)
    (hcm : "conda-meta" ∈ (entries.filterMap entryDir).map Prod.fst) :
    (add_directory (fuel+1) fl directory dev ino (some entries) ia r).st.file_modtimes
        = r.st.file_modtimes
    ∧ (add_directory (fuel+1) fl directory dev ino (some entries) ia r).st.canonicals
        = insertSet (effInode ia ino) r.st.canonicals
    ∧ (add_directory (fuel+1) fl directory dev ino (some entries) ia r).trace
        = r.trace ++ [(dev, ino)]
    ∧ (add_directory (fuel+1) fl directory dev ino (some entries) ia r).ok = true
    ∧ ∀ n, CEntry.classifyErr n ∈ entries →
        joinPath directory n
          ∈ (add_directory (fuel+1) fl directory dev ino
              (some entries) ia r).st.permission_errors := by
  have hb : ∀ s : String, s ∈ (entries.filterMap entryDir).map Prod.fst →
      (entries.filterMap entryDir).any (fun d => d.1 == s) = true := by
    intro s hs
    rcases List.mem_map.mp hs with ⟨d, hd, rfl⟩
    exact List.any_eq_true.mpr ⟨d, hd, by simp⟩
  have hana : anacondaSkip fl (entries.filterMap entryDir) = true := by
    unfold anacondaSkip
    rw [hflag, hb _ hcb, hb _ hbin, hb _ hcm]
    rfl
  have heq := add_directory_anaconda fuel fl directory dev ino entries ia r hok hfresh
    hpol hana
  rw [heq]
  have hc := classifyFold_eq directory entries
    ({ r.st with canonicals := insertSet (effInode ia ino) r.st.canonicals })
  exact ⟨hc.2.2.1, hc.2.2.2.1, rfl, hok,
         fun n hn => (hc.2.2.2.2 _).mpr (Or.inr ⟨n, hn, rfl⟩)⟩

theorem runtime_distribution_skipped_after_enumeration_witness :
    (add_directory 2 defFlags "/conda" 1 10 (some condaTree) none initWRes).st.file_modtimes
        = initWRes.st.file_modtimes
    ∧ (add_directory 2 defFlags "/conda" 1 10 (some condaTree) none initWRes).st.canonicals
        = insertSet (effInode none 10) initWRes.st.canonicals
    ∧ (add_directory 2 defFlags "/conda" 1 10 (some condaTree) none initWRes).trace
        = initWRes.trace ++ [(1, 10)]
    ∧ (add_directory 2 defFlags "/conda" 1 10 (some condaTree) none initWRes).ok = true
    ∧ ∀ n, CEntry.classifyErr n ∈ condaTree →
        joinPath "/conda" n
          ∈ (add_directory 2 defFlags "/conda" 1 10
              (some condaTree) none initWRes).st.permission_errors :=
  runtime_distribution_skipped_after_enumeration 1 defFlags "/conda" 1 10 condaTree none
    initWRes rfl (by decide) (by decide) rfl (by decide) (by decide) (by decide)

end GS
